import Mathlib

/-!
Arduino bus transport and NanoObject geometry of the ssd1306 library.

A shallow embedding of

* `src/ssd1306_hal/arduino/platform.cpp` : the Arduino `Wire` (I2C) and `SPI`
  transports behind `ssd1306_intf`;
* `src/nano_engine/object.h` : `NanoObject`, its move operations and its
  anchor accessors.

Calls into the Arduino core (`Wire`, `SPI`, `digitalWrite`, `pinMode`) are
recorded as events appended, in program order, to a trace kept in the state.
-/

namespace SSD1306

/-! ## I2C transport (`Wire`) -/

/-- Calls made on the `TwoWire` object `s_i2c`, in program order. -/
inductive WireEvent where
  | beginTransmission (sa : Nat)
  | endTransmission
  | write (data : Nat)
  deriving DecidableEq, Repr

/-- File-scope state of the I2C transport: `s_bytesWritten` (a `uint8_t`),
`s_sa`, and the calls made so far on `s_i2c`. -/
structure WireState where
  s_bytesWritten : Nat
  s_sa : Nat
  bus : List WireEvent
  deriving DecidableEq, Repr

/-- The function `ssd1306_i2cStart_Wire`: `beginTransmission(s_sa)`, then
`s_bytesWritten = 0`. -/
def ssd1306_i2cStart_Wire (st : WireState) : WireState :=
  { st with bus := st.bus ++ [WireEvent.beginTransmission st.s_sa], s_bytesWritten := 0 }

/-- The function `ssd1306_i2cStop_Wire`: `endTransmission()`. -/
def ssd1306_i2cStop_Wire (st : WireState) : WireState :=
  { st with bus := st.bus ++ [WireEvent.endTransmission] }

/-- The tail shared by every branch of `ssd1306_i2cSendByte_Wire`:
`s_i2c->write(data); s_bytesWritten++;` with `uint8_t` wrap-around. -/
def wireWrite (st : WireState) (data : Nat) : WireState :=
  { st with bus := st.bus ++ [WireEvent.write data],
            s_bytesWritten := (st.s_bytesWritten + 1) % 256 }

/-- The function `ssd1306_i2cSendByte_Wire` as compiled when one of the buffer-length
branches of the preprocessor conditional is selected
(`I2C_BUFFER_LENGTH >> 4`, `64`, `BUFFER_LENGTH - 2`,
`SERIAL_BUFFER_LENGTH - 2`, `USI_BUF_SIZE - 2`); `L` is the value of that
constant.  The function calls itself to send the marker `0x40`; `fuel`
bounds the depth of that recursion and `none` means the bound was hit. -/
def ssd1306_i2cSendByte_Wire (L : Nat) : Nat → WireState → Nat → Option WireState
  | 0, _, _ => none
  | fuel + 1, st, data =>
    if st.s_bytesWritten ≥ L then
      match ssd1306_i2cSendByte_Wire L fuel
          (ssd1306_i2cStart_Wire (ssd1306_i2cStop_Wire st)) 0x40 with
      | none => none
      | some st1 => some (wireWrite st1 data)
    else
      some (wireWrite st data)

/-- A caller passing the bytes `bs` one by one to
`ssd1306_i2cSendByte_Wire`. -/
def i2cSendEach (L fuel : Nat) : WireState → List Nat → Option WireState
  | st, [] => some st
  | st, b :: bs =>
    match ssd1306_i2cSendByte_Wire L fuel st b with
    | none => none
    | some st1 => i2cSendEach L fuel st1 bs

/-- The function `ssd1306_i2cSendBytes_Wire(buffer, size)`:
`while (size--) { ssd1306_i2cSendByte_Wire(*buffer); buffer++; }`.
`ram` is the memory the pointer `buffer` points into; it is returned next to
the transport state so that its contents after the call can be inspected. -/
def ssd1306_i2cSendBytes_Wire (L fuel : Nat) (st : WireState) (ram : Nat → Nat)
    (buffer : Nat) : Nat → Option (WireState × (Nat → Nat))
  | 0 => some (st, ram)
  | size + 1 =>
    match ssd1306_i2cSendByte_Wire L fuel st (ram buffer) with
    | none => none
    | some st1 => ssd1306_i2cSendBytes_Wire L fuel st1 ram (buffer + 1) size

/-- The bytes `buffer[0], ..., buffer[size-1]` of a caller buffer. -/
def bufferBytes (ram : Nat → Nat) (buffer size : Nat) : List Nat :=
  (List.range size).map (fun i => ram (buffer + i))

/-- The receiver's reading of a trace: every occurrence of the re-framing
sequence `endTransmission, beginTransmission(sa), write(0x40)` is deleted,
all other events are kept in order. -/
def stripRestarts (sa : Nat) : List WireEvent → List WireEvent
  | [] => []
  | WireEvent.endTransmission :: WireEvent.beginTransmission a :: WireEvent.write d :: rest =>
    if a = sa ∧ d = 0x40 then stripRestarts sa rest
    else WireEvent.endTransmission :: stripRestarts sa
      (WireEvent.beginTransmission a :: WireEvent.write d :: rest)
  | e :: rest => e :: stripRestarts sa rest

/-- One step of the transaction scan: the first component counts the bytes
written since the most recent `beginTransmission`, the second is the largest
value that count has reached. -/
def txStep (acc : Nat × Nat) : WireEvent → Nat × Nat
  | WireEvent.beginTransmission _ => (0, acc.2)
  | WireEvent.endTransmission => acc
  | WireEvent.write _ => (acc.1 + 1, max acc.2 (acc.1 + 1))

/-- Bytes written since the most recent `beginTransmission` of a trace. -/
def bytesSinceBegin (tr : List WireEvent) : Nat := (tr.foldl txStep (0, 0)).1

/-- Largest number of bytes carried by one transaction of a trace. -/
def maxTransactionBytes (tr : List WireEvent) : Nat := (tr.foldl txStep (0, 0)).2

/-- Number of `endTransmission` calls in a trace. -/
def countEnds (tr : List WireEvent) : Nat := tr.count WireEvent.endTransmission

/-- Closed form of the events emitted by sending `bs` byte by byte when the
counter stands at `k`. -/
def framed (L sa : Nat) : Nat → List Nat → List WireEvent
  | _, [] => []
  | k, b :: bs =>
    if k ≥ L then
      WireEvent.endTransmission :: WireEvent.beginTransmission sa ::
        WireEvent.write 0x40 :: WireEvent.write b :: framed L sa 2 bs
    else WireEvent.write b :: framed L sa ((k + 1) % 256) bs

/-- Closed form of `s_bytesWritten` after sending `bs` byte by byte when the
counter stands at `k`. -/
def framedCount (L : Nat) : Nat → List Nat → Nat
  | k, [] => k
  | k, _ :: bs => if k ≥ L then framedCount L 2 bs else framedCount L ((k + 1) % 256) bs

/-! ## SPI transport -/

/-- Logic level passed to `digitalWrite`. -/
inductive PinLevel where
  | LOW
  | HIGH
  deriving DecidableEq, Repr

/-- Calls made on the Arduino core by the SPI transport, in program order.
`beginTransaction clock` stands for
`SPI.beginTransaction(SPISettings(clock, MSBFIRST, SPI_MODE0))` and
`pinModeOutput pin` for `pinMode(pin, OUTPUT)`. -/
inductive SpiEvent where
  | pinModeOutput (pin : Int)
  | digitalWrite (pin : Int) (level : PinLevel)
  | spiBegin
  | beginTransaction (clock : Nat)
  | transfer (data : Nat)
  | endTransaction
  deriving DecidableEq, Repr

/-- The functions a slot of `ssd1306_intf` can point to after
`ssd1306_platform_spiInit`; `unset` is any other value. -/
inductive Handler where
  | unset
  | spiStart_hw
  | spiStop_hw
  | spiSendByte_hw
  | spiSendBytes_hw
  | spiClose_hw
  deriving DecidableEq, Repr

/-- The interface table `ssd1306_intf`. -/
structure Interface where
  spi : Nat
  start : Handler
  stop : Handler
  send : Handler
  send_buffer : Handler
  close : Handler
  deriving DecidableEq, Repr

/-- Globals read and written by the SPI transport (`s_ssd1306_cs`,
`s_ssd1306_dc`, `s_ssd1306_spi_clock`, `ssd1306_lcd.type`, `ssd1306_intf`)
and the calls made so far on the Arduino core. -/
structure SpiState where
  s_ssd1306_cs : Int
  s_ssd1306_dc : Int
  s_ssd1306_spi_clock : Nat
  lcdType : Nat
  intf : Interface
  trace : List SpiEvent
  deriving DecidableEq, Repr

/-- Record one call on the Arduino core. -/
def SpiState.emit (st : SpiState) (e : SpiEvent) : SpiState :=
  { st with trace := st.trace ++ [e] }

/-- The function `ssd1306_spiStart_hw`. -/
def ssd1306_spiStart_hw (st : SpiState) : SpiState :=
  let st1 := st.emit (SpiEvent.beginTransaction st.s_ssd1306_spi_clock)
  if st1.s_ssd1306_cs ≥ 0 then
    st1.emit (SpiEvent.digitalWrite st1.s_ssd1306_cs PinLevel.LOW)
  else st1

/-- The function `ssd1306_spiStop_hw`; `LCD_TYPE_PCD8544` is the value of that enumerator
of `lcd/lcd_common.h`. -/
def ssd1306_spiStop_hw (LCD_TYPE_PCD8544 : Nat) (st : SpiState) : SpiState :=
  let st1 :=
    if st.lcdType = LCD_TYPE_PCD8544 then
      (st.emit (SpiEvent.digitalWrite st.s_ssd1306_dc PinLevel.LOW)).emit (SpiEvent.transfer 0x00)
    else st
  let st2 :=
    if st1.s_ssd1306_cs ≥ 0 then
      st1.emit (SpiEvent.digitalWrite st1.s_ssd1306_cs PinLevel.HIGH)
    else st1
  st2.emit SpiEvent.endTransaction

/-- The function `ssd1306_spiSendByte_hw`: `SPI.transfer(data)`. -/
def ssd1306_spiSendByte_hw (st : SpiState) (data : Nat) : SpiState :=
  st.emit (SpiEvent.transfer data)

/-- The function `ssd1306_spiSendBytes_hw(buffer, size)`:
`while (size--) { SPI.transfer(*buffer); buffer++; }`, with the memory `ram`
returned next to the state. -/
def ssd1306_spiSendBytes_hw (st : SpiState) (ram : Nat → Nat) (buffer : Nat) :
    Nat → SpiState × (Nat → Nat)
  | 0 => (st, ram)
  | size + 1 =>
    ssd1306_spiSendBytes_hw (st.emit (SpiEvent.transfer (ram buffer))) ram (buffer + 1) size

/-- A caller passing the bytes `bs` one by one to `ssd1306_spiSendByte_hw`. -/
def spiSendEach : SpiState → List Nat → SpiState
  | st, [] => st
  | st, b :: bs => spiSendEach (ssd1306_spiSendByte_hw st b) bs

/-- The function `ssd1306_platform_spiInit(busId, cesPin, dcPin)`: the two
`pinMode` calls are guarded by `>= 0`, the two assignments by the truth value
of the pin number (`if (cesPin)`, `if (dcPin)`). -/
def ssd1306_platform_spiInit (st : SpiState) (busId cesPin dcPin : Int) : SpiState :=
  let st1 := if cesPin ≥ 0 then st.emit (SpiEvent.pinModeOutput cesPin) else st
  let st2 := if dcPin ≥ 0 then st1.emit (SpiEvent.pinModeOutput dcPin) else st1
  let st3 := if cesPin ≠ 0 then { st2 with s_ssd1306_cs := cesPin } else st2
  let st4 := if dcPin ≠ 0 then { st3 with s_ssd1306_dc := dcPin } else st3
  let st5 := st4.emit SpiEvent.spiBegin
  { st5 with intf :=
      { spi := 1,
        start := Handler.spiStart_hw,
        stop := Handler.spiStop_hw,
        send := Handler.spiSendByte_hw,
        send_buffer := Handler.spiSendBytes_hw,
        close := Handler.spiClose_hw } }

/-- A state of the SPI globals in which chip-select is pin 4, data/command is
pin 5 and nothing is bound in `ssd1306_intf` yet. -/
def spiBefore : SpiState :=
  { s_ssd1306_cs := 4, s_ssd1306_dc := 5, s_ssd1306_spi_clock := 8000000, lcdType := 0,
    intf := { spi := 0, start := Handler.unset, stop := Handler.unset, send := Handler.unset,
              send_buffer := Handler.unset, close := Handler.unset },
    trace := [] }

/-! ## NanoObject -/

/-- Reduction of an integer to the signed type `lcdint_t` (declared in
`ssd1306_hal/io.h`), `bits` being the width of that type. -/
def toLcdint (bits : Nat) (v : Int) : Int :=
  let m : Int := 2 ^ bits
  let r := v % m
  if 2 * r < m then r else r - m

/-- The integer `v` is representable in `lcdint_t`, that is
`-2^(bits-1) ≤ v < 2^(bits-1)`. -/
def fitsLcdint (bits : Nat) (v : Int) : Prop :=
  -(2 ^ bits : Int) ≤ 2 * v ∧ 2 * v < (2 ^ bits : Int)

instance (bits : Nat) (v : Int) : Decidable (fitsLcdint bits v) := by
  unfold fitsLcdint
  exact inferInstance

/-- The type `NanoPoint` of `point.h`: a pair of `lcdint_t` coordinates. -/
structure NanoPoint where
  x : Int
  y : Int
  deriving DecidableEq, Repr

/-- The type `NanoRect` of `rect.h`: top-left corner `p1`, bottom-right corner `p2`. -/
structure NanoRect where
  p1 : NanoPoint
  p2 : NanoPoint
  deriving DecidableEq, Repr

/-- Modelled from the spec: `NanoPoint::operator+` lives in `point.h`, which
is not among the sources; a point supports translation by another point,
coordinate by coordinate in `lcdint_t`. -/
def NanoPoint.add (bits : Nat) (p q : NanoPoint) : NanoPoint :=
  { x := toLcdint bits (p.x + q.x), y := toLcdint bits (p.y + q.y) }

/-- Modelled from the spec: `NanoRect::operator+=` lives in `rect.h`, which
is not among the sources; a rectangle supports translation, which moves both
corners by the same point. -/
def NanoRect.translate (bits : Nat) (r : NanoRect) (p : NanoPoint) : NanoRect :=
  { p1 := NanoPoint.add bits r.p1 p, p2 := NanoPoint.add bits r.p2 p }

/-- The class `NanoObject`: the members `m_rect` and `m_tiler`, and the rectangles seen
by the calls of `refresh()` so far, oldest first. -/
structure NanoObject where
  m_rect : NanoRect
  m_tiler : Option Nat
  refreshed : List NanoRect
  deriving DecidableEq, Repr

/-- The constructor `NanoObject(const NanoPoint &pos) {}`: it has no member
initialiser and an empty body, so `m_rect` is default-initialised: it holds
whatever `indeterminate` content its storage has; `m_tiler` is `nullptr`. -/
def NanoObject.construct (indeterminate : NanoRect) (pos : NanoPoint) : NanoObject :=
  { m_rect := indeterminate, m_tiler := none, refreshed := [] }

/-- Modelled from the spec: `NanoObject::refresh()` is declared virtual in
`object.h` and defined outside the sources; it is the damage report of the
object, which reports the current bounding rectangle and leaves the object
as it is. -/
def NanoObject.refresh (o : NanoObject) : NanoObject :=
  { o with refreshed := o.refreshed ++ [o.m_rect] }

/-- The method `NanoObject::moveTo`: `refresh(); m_rect = { p, p + m_rect.size() };
refresh();`.  `size` is `NanoRect::size()` of `rect.h`. -/
def NanoObject.moveTo (bits : Nat) (size : NanoRect → NanoPoint) (o : NanoObject)
    (p : NanoPoint) : NanoObject :=
  let o1 := o.refresh
  let o2 := { o1 with m_rect := { p1 := p, p2 := NanoPoint.add bits p (size o1.m_rect) } }
  o2.refresh

/-- The method `NanoObject::moveBy`: `refresh(); m_rect += p; refresh();`. -/
def NanoObject.moveBy (bits : Nat) (o : NanoObject) (p : NanoPoint) : NanoObject :=
  let o1 := o.refresh
  let o2 := { o1 with m_rect := NanoRect.translate bits o1.m_rect p }
  o2.refresh

/-- The expression `(a + b) >> 1` on `lcdint_t` operands: the sum is formed
in `lcdint_t` and shifted right arithmetically by one bit. -/
def midpoint (bits : Nat) (a b : Int) : Int :=
  (toLcdint bits (a + b)) >>> (1 : Nat)

/-- The method `NanoObject::bottom`. -/
def NanoObject.bottom (bits : Nat) (o : NanoObject) : NanoPoint :=
  { x := midpoint bits o.m_rect.p1.x o.m_rect.p2.x, y := o.m_rect.p2.y }

/-- The method `NanoObject::top`. -/
def NanoObject.top (bits : Nat) (o : NanoObject) : NanoPoint :=
  { x := midpoint bits o.m_rect.p1.x o.m_rect.p2.x, y := o.m_rect.p1.y }

/-- The method `NanoObject::left`. -/
def NanoObject.left (bits : Nat) (o : NanoObject) : NanoPoint :=
  { x := o.m_rect.p1.x, y := midpoint bits o.m_rect.p1.y o.m_rect.p2.y }

/-- The method `NanoObject::right`. -/
def NanoObject.right (bits : Nat) (o : NanoObject) : NanoPoint :=
  { x := o.m_rect.p2.x, y := midpoint bits o.m_rect.p1.y o.m_rect.p2.y }

/-- The method `NanoObject::center`. -/
def NanoObject.center (bits : Nat) (o : NanoObject) : NanoPoint :=
  { x := midpoint bits o.m_rect.p1.x o.m_rect.p2.x,
    y := midpoint bits o.m_rect.p1.y o.m_rect.p2.y }

/-- The method `NanoObject::x`. -/
def NanoObject.x (o : NanoObject) : Int := o.m_rect.p1.x

/-- The method `NanoObject::y`. -/
def NanoObject.y (o : NanoObject) : Int := o.m_rect.p1.y

/-- The reference value `floor(v / 2)`, computed in the rationals. -/
def floorHalf (v : Int) : Int := ⌊(v : ℚ) / 2⌋

/-! ### Lemmas on the I2C transport -/

theorem sendByte_closed (L fuel : Nat) (hL : 1 ≤ L) (st : WireState) (d : Nat) :
    ssd1306_i2cSendByte_Wire L (fuel + 2) st d =
      some (if st.s_bytesWritten ≥ L then
        { s_bytesWritten := 2, s_sa := st.s_sa,
          bus := st.bus ++ [WireEvent.endTransmission, WireEvent.beginTransmission st.s_sa,
            WireEvent.write 0x40, WireEvent.write d] }
      else wireWrite st d) := by
  have h0 : ¬ (0 ≥ L) := by omega
  by_cases h : st.s_bytesWritten ≥ L
  · simp [ssd1306_i2cSendByte_Wire, h, h0, ssd1306_i2cStart_Wire, ssd1306_i2cStop_Wire,
      wireWrite]
  · simp [ssd1306_i2cSendByte_Wire, h]

theorem sendEach_closed (L fuel : Nat) (hL : 1 ≤ L) (bs : List Nat) (st : WireState) :
    i2cSendEach L (fuel + 2) st bs =
      some { s_bytesWritten := framedCount L st.s_bytesWritten bs, s_sa := st.s_sa,
             bus := st.bus ++ framed L st.s_sa st.s_bytesWritten bs } := by
  induction bs generalizing st with
  | nil => simp [i2cSendEach, framed, framedCount]
  | cons b bs ih =>
    rw [i2cSendEach, sendByte_closed L fuel hL]
    by_cases h : st.s_bytesWritten ≥ L
    · simp [h, ih, framed, framedCount]
    · simp [h, ih, framed, framedCount, wireWrite]

theorem stripRestarts_framed (L sa : Nat) (bs : List Nat) (k : Nat) :
    stripRestarts sa (framed L sa k bs) = bs.map WireEvent.write := by
  induction bs generalizing k with
  | nil => simp [framed, stripRestarts]
  | cons b bs ih =>
    by_cases h : k ≥ L
    · simp [framed, h, stripRestarts, ih]
    · simp [framed, h, stripRestarts, ih]

theorem txScan_framed (L sa : Nat) (h2 : 2 ≤ L) (h255 : L ≤ 255) (bs : List Nat)
    (k : Nat) (acc : Nat × Nat) (hk : acc.1 = k) (hkL : k ≤ L) (hm : acc.2 ≤ L) :
    ((framed L sa k bs).foldl txStep acc).1 = framedCount L k bs ∧
    framedCount L k bs ≤ L ∧ ((framed L sa k bs).foldl txStep acc).2 ≤ L := by
  induction bs generalizing k acc with
  | nil => simp [framed, framedCount, hk, hkL, hm]
  | cons b bs ih =>
    by_cases h : k ≥ L
    · simp only [framed, framedCount, h, if_true, List.foldl_cons, txStep]
      exact ih 2 _ (by simp) h2 (by simp; omega)
    · have hlt : (k + 1) % 256 = k + 1 := Nat.mod_eq_of_lt (by omega)
      simp only [framed, framedCount, h, if_false, List.foldl_cons, txStep, hlt]
      exact ih (k + 1) _ (by simp [hk]) (by omega) (by simp [hk]; omega)

theorem framed_short (L sa : Nat) (h255 : L ≤ 255) (bs : List Nat) (k : Nat)
    (h : k + bs.length ≤ L) :
    framed L sa k bs = bs.map WireEvent.write ∧ framedCount L k bs = k + bs.length := by
  induction bs generalizing k with
  | nil => simp [framed, framedCount]
  | cons b bs ih =>
    simp only [List.length_cons] at h
    have hk : ¬ (k ≥ L) := by omega
    have hlt : (k + 1) % 256 = k + 1 := Nat.mod_eq_of_lt (by omega)
    have := ih (k + 1) (by omega)
    simp only [framed, framedCount, hk, if_false, hlt, this.1, this.2, List.map_cons,
      List.length_cons]
    exact ⟨trivial, by omega⟩

theorem framed_append (L sa : Nat) (xs ys : List Nat) (k : Nat) :
    framed L sa k (xs ++ ys) = framed L sa k xs ++ framed L sa (framedCount L k xs) ys := by
  induction xs generalizing k with
  | nil => simp [framed, framedCount]
  | cons x xs ih =>
    by_cases h : k ≥ L
    · simp [framed, framedCount, h, ih]
    · simp [framed, framedCount, h, ih]

theorem countEnds_writes (bs : List Nat) :
    countEnds (bs.map WireEvent.write) = 0 := by
  induction bs with
  | nil => rfl
  | cons b bs ih =>
    simp only [countEnds] at ih
    simp [countEnds, List.count_cons, ih]

theorem framed_one_restart (L sa : Nat) (h2 : 2 ≤ L) (h255 : L ≤ 255) (bs : List Nat)
    (hN : L < bs.length) (hN2 : bs.length ≤ 2 * L - 1) :
    framed L sa 0 bs =
      (bs.take L).map WireEvent.write ++
        [WireEvent.endTransmission, WireEvent.beginTransmission sa, WireEvent.write 0x40] ++
        (bs.drop L).map WireEvent.write := by
  have hlen : (bs.take L).length = L := by simp; omega
  have hshort := framed_short L sa h255 (bs.take L) 0 (by omega)
  have hsplit : framed L sa 0 bs = framed L sa 0 (bs.take L ++ bs.drop L) := by
    rw [List.take_append_drop]
  rw [hsplit, framed_append, hshort.1, hshort.2, hlen]
  cases hd : bs.drop L with
  | nil =>
    have : (bs.drop L).length = 0 := by rw [hd]; rfl
    simp at this
    omega
  | cons y ys =>
    have hys : (bs.drop L).length = ys.length + 1 := by rw [hd]; rfl
    simp only [List.length_drop] at hys
    have hrest := framed_short L sa h255 ys 2 (by omega)
    simp [framed, hrest.1]

/-! ### The I2C claims -/

/-- C1. Re-framing is invisible to the receiver: for every limit `L` with
`2 ≤ L ≤ 255` and every byte sequence `bs` sent byte by byte after
`ssd1306_i2cStart_Wire`, the calls return, and deleting from the bus trace
every sequence `endTransmission, beginTransmission(s_sa), write(0x40)` leaves
exactly the opening `beginTransmission(s_sa)` followed by the bytes of `bs` in
their original order; so every internal restart is that exact sequence and no
caller byte is dropped, duplicated or reordered. -/
theorem i2c_reframing_invisible (L : Nat) (h2 : 2 ≤ L) (h255 : L ≤ 255)
    (sa bw0 fuel : Nat) (bs : List Nat) :
    ∃ st, i2cSendEach L (fuel + 2)
        (ssd1306_i2cStart_Wire { s_bytesWritten := bw0, s_sa := sa, bus := [] }) bs = some st ∧
      stripRestarts sa st.bus = WireEvent.beginTransmission sa :: bs.map WireEvent.write := by
  refine ⟨_, sendEach_closed L fuel (by omega) bs _, ?_⟩
  simp [ssd1306_i2cStart_Wire, stripRestarts, stripRestarts_framed]

/-- C1 at limit 2 with caller bytes that equal the marker. -/
theorem i2c_reframing_invisible_witness :
    ∃ st, i2cSendEach 2 2
        (ssd1306_i2cStart_Wire { s_bytesWritten := 9, s_sa := 0x3C, bus := [] })
        [0x40, 7, 0x40, 0x40] = some st ∧
      stripRestarts 0x3C st.bus =
        WireEvent.beginTransmission 0x3C :: [0x40, 7, 0x40, 0x40].map WireEvent.write :=
  i2c_reframing_invisible 2 (by decide) (by decide) 0x3C 9 0 [0x40, 7, 0x40, 0x40]

/-- C2. The per-transaction limit is enforced: for every limit `L` with
`2 ≤ L ≤ 255`, after `ssd1306_i2cStart_Wire` and any sequence of
`ssd1306_i2cSendByte_Wire` calls, `s_bytesWritten` equals the number of bytes
written since the most recent `beginTransmission` (marker included), is at
most `L`, and no transaction of the trace carries more than `L` bytes. -/
theorem i2c_limit_enforced (L : Nat) (h2 : 2 ≤ L) (h255 : L ≤ 255)
    (sa bw0 fuel : Nat) (bs : List Nat) :
    ∃ st, i2cSendEach L (fuel + 2)
        (ssd1306_i2cStart_Wire { s_bytesWritten := bw0, s_sa := sa, bus := [] }) bs = some st ∧
      st.s_bytesWritten = bytesSinceBegin st.bus ∧
      st.s_bytesWritten ≤ L ∧
      maxTransactionBytes st.bus ≤ L := by
  refine ⟨_, sendEach_closed L fuel (by omega) bs _, ?_⟩
  have h := txScan_framed L sa h2 h255 bs 0 (0, 0) rfl (by omega) (by simp)
  simp only [ssd1306_i2cStart_Wire, bytesSinceBegin, maxTransactionBytes, List.nil_append,
    List.singleton_append, List.foldl_cons, txStep]
  exact ⟨h.1.symm, h.2.1, h.2.2⟩

/-- C2 at limit 3 with seven bytes and a stale counter before the start. -/
theorem i2c_limit_enforced_witness :
    ∃ st, i2cSendEach 3 2
        (ssd1306_i2cStart_Wire { s_bytesWritten := 200, s_sa := 0x3C, bus := [] })
        [1, 2, 3, 4, 5, 6, 7] = some st ∧
      st.s_bytesWritten = bytesSinceBegin st.bus ∧
      st.s_bytesWritten ≤ 3 ∧
      maxTransactionBytes st.bus ≤ 3 :=
  i2c_limit_enforced 3 (by decide) (by decide) 0x3C 200 0 [1, 2, 3, 4, 5, 6, 7]

/-- C3, as stated, fails: with limit `L = 2`, sending `N = 4 > L` bytes in
one transaction re-frames twice and inserts two marker bytes. -/
theorem i2c_exactly_one_reframe_counterexample :
    i2cSendEach 2 2 (ssd1306_i2cStart_Wire { s_bytesWritten := 0, s_sa := 0x3C, bus := [] })
        [1, 2, 3, 4] =
      some { s_bytesWritten := 2, s_sa := 0x3C,
             bus := [WireEvent.beginTransmission 0x3C, WireEvent.write 1, WireEvent.write 2,
               WireEvent.endTransmission, WireEvent.beginTransmission 0x3C,
               WireEvent.write 0x40, WireEvent.write 3,
               WireEvent.endTransmission, WireEvent.beginTransmission 0x3C,
               WireEvent.write 0x40, WireEvent.write 4] } ∧
    ¬ (∃ st, i2cSendEach 2 2
          (ssd1306_i2cStart_Wire { s_bytesWritten := 0, s_sa := 0x3C, bus := [] })
          [1, 2, 3, 4] = some st ∧ countEnds st.bus = 1) := by
  refine ⟨by decide, ?_⟩
  rintro ⟨st, hst, hc⟩
  have h : i2cSendEach 2 2
      (ssd1306_i2cStart_Wire { s_bytesWritten := 0, s_sa := 0x3C, bus := [] }) [1, 2, 3, 4] =
      some { s_bytesWritten := 2, s_sa := 0x3C,
             bus := [WireEvent.beginTransmission 0x3C, WireEvent.write 1, WireEvent.write 2,
               WireEvent.endTransmission, WireEvent.beginTransmission 0x3C,
               WireEvent.write 0x40, WireEvent.write 3,
               WireEvent.endTransmission, WireEvent.beginTransmission 0x3C,
               WireEvent.write 0x40, WireEvent.write 4] } := by decide
  rw [h] at hst
  cases hst
  revert hc
  decide

/-- C3, amended. For every limit `L` with `2 ≤ L ≤ 255` and every `N` with
`L < N ≤ 2L - 1`, sending `N` bytes byte by byte inside one transaction opened
by `ssd1306_i2cStart_Wire` returns and causes exactly one re-framing event:
the trace is the opening `beginTransmission`, the first `L` caller bytes,
then `endTransmission, beginTransmission(s_sa), write(0x40)`, then the
remaining caller bytes. -/
theorem i2c_single_reframe (L : Nat) (h2 : 2 ≤ L) (h255 : L ≤ 255)
    (sa bw0 fuel : Nat) (bs : List Nat)
    (hN : L < bs.length) (hN2 : bs.length ≤ 2 * L - 1) :
    ∃ st, i2cSendEach L (fuel + 2)
        (ssd1306_i2cStart_Wire { s_bytesWritten := bw0, s_sa := sa, bus := [] }) bs = some st ∧
      st.bus = WireEvent.beginTransmission sa :: ((bs.take L).map WireEvent.write ++
        [WireEvent.endTransmission, WireEvent.beginTransmission sa, WireEvent.write 0x40] ++
        (bs.drop L).map WireEvent.write) ∧
      countEnds st.bus = 1 := by
  refine ⟨_, sendEach_closed L fuel (by omega) bs _, ?_⟩
  have hf := framed_one_restart L sa h2 h255 bs hN hN2
  have hbus : (ssd1306_i2cStart_Wire { s_bytesWritten := bw0, s_sa := sa, bus := [] }).bus ++
      framed L sa 0 bs = WireEvent.beginTransmission sa :: ((bs.take L).map WireEvent.write ++
        [WireEvent.endTransmission, WireEvent.beginTransmission sa, WireEvent.write 0x40] ++
        (bs.drop L).map WireEvent.write) := by
    simp [ssd1306_i2cStart_Wire, hf]
  refine ⟨hbus, ?_⟩
  show countEnds ((ssd1306_i2cStart_Wire { s_bytesWritten := bw0, s_sa := sa, bus := [] }).bus ++
      framed L sa 0 bs) = 1
  rw [hbus]
  have h1 := countEnds_writes (bs.take L)
  have h2 := countEnds_writes (bs.drop L)
  simp only [countEnds] at h1 h2 ⊢
  rw [List.count_cons, List.count_append, List.count_append, h1, h2]
  simp [List.count_cons]

/-- C3 amended, at limit 3 with five bytes. -/
theorem i2c_single_reframe_witness :
    ∃ st, i2cSendEach 3 2
        (ssd1306_i2cStart_Wire { s_bytesWritten := 0, s_sa := 0x3C, bus := [] })
        [1, 2, 3, 4, 5] = some st ∧
      st.bus = WireEvent.beginTransmission 0x3C :: (([1, 2, 3, 4, 5].take 3).map WireEvent.write ++
        [WireEvent.endTransmission, WireEvent.beginTransmission 0x3C, WireEvent.write 0x40] ++
        ([1, 2, 3, 4, 5].drop 3).map WireEvent.write) ∧
      countEnds st.bus = 1 :=
  i2c_single_reframe 3 (by decide) (by decide) 0x3C 0 0 [1, 2, 3, 4, 5] (by decide) (by decide)

/-! ### Batch sends -/

theorem bufferBytes_succ (ram : Nat → Nat) (buffer size : Nat) :
    bufferBytes ram buffer (size + 1) = ram buffer :: bufferBytes ram (buffer + 1) size := by
  simp only [bufferBytes, List.range_succ_eq_map, List.map_cons, List.map_map, Nat.add_zero]
  congr 1
  apply List.map_congr_left
  intro i _
  simp only [Function.comp, Nat.succ_eq_add_one]
  congr 1
  omega

theorem i2cSendBytes_eq_sendEach (L fuel : Nat) (ram : Nat → Nat) (size : Nat)
    (st : WireState) (buffer : Nat) :
    ssd1306_i2cSendBytes_Wire L fuel st ram buffer size =
      (i2cSendEach L fuel st (bufferBytes ram buffer size)).map (fun s => (s, ram)) := by
  induction size generalizing st buffer with
  | zero => simp [ssd1306_i2cSendBytes_Wire, bufferBytes, i2cSendEach]
  | succ n ih =>
    rw [bufferBytes_succ, ssd1306_i2cSendBytes_Wire, i2cSendEach]
    cases h : ssd1306_i2cSendByte_Wire L fuel st (ram buffer) with
    | none => rfl
    | some st1 => exact ih st1 (buffer + 1)

theorem spiSendBytes_eq_sendEach (ram : Nat → Nat) (size : Nat)
    (st : SpiState) (buffer : Nat) :
    ssd1306_spiSendBytes_hw st ram buffer size =
      (spiSendEach st (bufferBytes ram buffer size), ram) := by
  induction size generalizing st buffer with
  | zero => simp [ssd1306_spiSendBytes_hw, bufferBytes, spiSendEach]
  | succ n ih =>
    rw [bufferBytes_succ, ssd1306_spiSendBytes_hw, spiSendEach, ih]
    rfl

/-- C4. The batch send is the fold of the single-byte send: for every buffer
and every size (0..65535 included), `ssd1306_i2cSendBytes_Wire(buffer, size)` has the same outcome
(trace and `s_bytesWritten`) as `ssd1306_i2cSendByte_Wire` called on
`buffer[0], ..., buffer[size-1]` in order, and returns whenever the limit is
at least 1; `ssd1306_spiSendBytes_hw(buffer, size)` has the same trace as
`size` successive `ssd1306_spiSendByte_hw` calls; both do nothing when `size`
is 0; and both leave the memory holding the buffer as it was. -/
theorem sendBytes_is_fold (L fuel : Nat) (st : WireState) (sp : SpiState)
    (ram : Nat → Nat) (buffer size : Nat) :
    ssd1306_i2cSendBytes_Wire L fuel st ram buffer size =
        (i2cSendEach L fuel st (bufferBytes ram buffer size)).map (fun s => (s, ram)) ∧
    (1 ≤ L → ∃ st1, i2cSendEach L (fuel + 2) st (bufferBytes ram buffer size) = some st1 ∧
        ssd1306_i2cSendBytes_Wire L (fuel + 2) st ram buffer size = some (st1, ram)) ∧
    ssd1306_spiSendBytes_hw sp ram buffer size =
        (spiSendEach sp (bufferBytes ram buffer size), ram) ∧
    ssd1306_i2cSendBytes_Wire L fuel st ram buffer 0 = some (st, ram) ∧
    ssd1306_spiSendBytes_hw sp ram buffer 0 = (sp, ram) := by
  refine ⟨i2cSendBytes_eq_sendEach L fuel ram size st buffer, ?_,
    spiSendBytes_eq_sendEach ram size sp buffer, rfl, rfl⟩
  intro hL
  refine ⟨_, sendEach_closed L fuel hL _ st, ?_⟩
  rw [i2cSendBytes_eq_sendEach, sendEach_closed L fuel hL]
  rfl

/-- C4 at limit 3 with a four-byte buffer holding 1, 2, 3, 4. -/
theorem sendBytes_is_fold_witness :
    1 ≤ 3 ∧
    ∃ st1, i2cSendEach 3 2 { s_bytesWritten := 0, s_sa := 0x3C, bus := [] }
        (bufferBytes (fun i => i + 1) 0 4) = some st1 ∧
      ssd1306_i2cSendBytes_Wire 3 2 { s_bytesWritten := 0, s_sa := 0x3C, bus := [] }
        (fun i => i + 1) 0 4 = some (st1, fun i => i + 1) :=
  ⟨by decide,
   (sendBytes_is_fold 3 0 { s_bytesWritten := 0, s_sa := 0x3C, bus := [] } spiBefore
      (fun i => i + 1) 0 4).2.1 (by decide)⟩

/-! ### SPI transaction bracket and initialisation -/

theorem spiSendEach_closed (bs : List Nat) (st : SpiState) :
    spiSendEach st bs = { st with trace := st.trace ++ bs.map SpiEvent.transfer } := by
  induction bs generalizing st with
  | nil => simp [spiSendEach]
  | cons b bs ih => simp [spiSendEach, ih, ssd1306_spiSendByte_hw, SpiState.emit]

/-- C7. SPI end-of-transaction ordering: `ssd1306_spiStop_hw` emits, in this
order, the data/command pin driven LOW and one byte `0x00` when the LCD type
is PCD8544 (nothing otherwise), then chip-select driven HIGH if and only if
`s_ssd1306_cs >= 0`, then `SPI.endTransaction`; `ssd1306_spiStart_hw` emits
`SPI.beginTransaction` and then drives the same pin LOW under the same
condition; so in a whole transaction the trailing NOP byte follows the
caller's bytes and precedes the deassertion of chip-select. -/
theorem spiStop_ordering (LCD_TYPE_PCD8544 : Nat) (st : SpiState) (bs : List Nat) :
    (ssd1306_spiStop_hw LCD_TYPE_PCD8544 st).trace =
      st.trace ++
        (if st.lcdType = LCD_TYPE_PCD8544 then
          [SpiEvent.digitalWrite st.s_ssd1306_dc PinLevel.LOW, SpiEvent.transfer 0x00]
         else []) ++
        (if st.s_ssd1306_cs ≥ 0 then [SpiEvent.digitalWrite st.s_ssd1306_cs PinLevel.HIGH]
         else []) ++
        [SpiEvent.endTransaction] ∧
    (ssd1306_spiStart_hw st).trace =
      st.trace ++ [SpiEvent.beginTransaction st.s_ssd1306_spi_clock] ++
        (if st.s_ssd1306_cs ≥ 0 then [SpiEvent.digitalWrite st.s_ssd1306_cs PinLevel.LOW]
         else []) ∧
    (ssd1306_spiStop_hw LCD_TYPE_PCD8544 (spiSendEach (ssd1306_spiStart_hw st) bs)).trace =
      st.trace ++ [SpiEvent.beginTransaction st.s_ssd1306_spi_clock] ++
        (if st.s_ssd1306_cs ≥ 0 then [SpiEvent.digitalWrite st.s_ssd1306_cs PinLevel.LOW]
         else []) ++
        bs.map SpiEvent.transfer ++
        (if st.lcdType = LCD_TYPE_PCD8544 then
          [SpiEvent.digitalWrite st.s_ssd1306_dc PinLevel.LOW, SpiEvent.transfer 0x00]
         else []) ++
        (if st.s_ssd1306_cs ≥ 0 then [SpiEvent.digitalWrite st.s_ssd1306_cs PinLevel.HIGH]
         else []) ++
        [SpiEvent.endTransaction] := by
  refine ⟨?_, ?_, ?_⟩
  · by_cases ht : st.lcdType = LCD_TYPE_PCD8544 <;> by_cases hc : st.s_ssd1306_cs ≥ 0 <;>
      simp [ssd1306_spiStop_hw, SpiState.emit, ht, hc]
  · by_cases hc : st.s_ssd1306_cs ≥ 0 <;> simp [ssd1306_spiStart_hw, SpiState.emit, hc]
  · rw [spiSendEach_closed]
    by_cases ht : st.lcdType = LCD_TYPE_PCD8544 <;> by_cases hc : st.s_ssd1306_cs ≥ 0 <;>
      simp [ssd1306_spiStop_hw, ssd1306_spiStart_hw, SpiState.emit, ht, hc]

theorem spiInit_nonzero_pins (st : SpiState) (busId cesPin dcPin : Int)
    (hc : cesPin ≠ 0) (hd : dcPin ≠ 0) :
    (ssd1306_platform_spiInit st busId cesPin dcPin).s_ssd1306_cs = cesPin ∧
    (ssd1306_platform_spiInit st busId cesPin dcPin).s_ssd1306_dc = dcPin ∧
    (ssd1306_platform_spiInit st busId cesPin dcPin).intf =
      { spi := 1, start := Handler.spiStart_hw, stop := Handler.spiStop_hw,
        send := Handler.spiSendByte_hw, send_buffer := Handler.spiSendBytes_hw,
        close := Handler.spiClose_hw } := by
  simp [ssd1306_platform_spiInit, hc, hd, SpiState.emit]

/-- C9 at the failing input: `ssd1306_platform_spiInit(0, 0, 0)` called when
chip-select is pin 4 and data/command is pin 5 sets pin 0 to OUTPUT twice but
leaves `s_ssd1306_cs = 4` and `s_ssd1306_dc = 5`, and the following
`ssd1306_spiStart_hw` drives pin 4, not pin 0. -/
theorem spiInit_pin_zero_not_stored :
    (ssd1306_platform_spiInit spiBefore 0 0 0).s_ssd1306_cs = 4 ∧
    (ssd1306_platform_spiInit spiBefore 0 0 0).s_ssd1306_dc = 5 ∧
    (ssd1306_platform_spiInit spiBefore 0 0 0).trace =
      [SpiEvent.pinModeOutput 0, SpiEvent.pinModeOutput 0, SpiEvent.spiBegin] ∧
    (ssd1306_spiStart_hw (ssd1306_platform_spiInit spiBefore 0 0 0)).trace =
      [SpiEvent.pinModeOutput 0, SpiEvent.pinModeOutput 0, SpiEvent.spiBegin,
       SpiEvent.beginTransaction 8000000, SpiEvent.digitalWrite 4 PinLevel.LOW] := by
  decide

/-! ### NanoObject -/

theorem toLcdint_of_fits (bits : Nat) (v : Int) (h : fitsLcdint bits v) :
    toLcdint bits v = v := by
  obtain ⟨hlo, hhi⟩ := h
  have hm : (0 : Int) < 2 ^ bits := by positivity
  unfold toLcdint
  generalize (2 : Int) ^ bits = m at hlo hhi hm ⊢
  by_cases hv : 0 ≤ v
  · have hr : v % m = v := Int.emod_eq_of_lt hv (by omega)
    simp only [hr]
    rw [if_pos hhi]
  · have hr : v % m = v + m := by
      have h1 : (v + m) % m = v + m := Int.emod_eq_of_lt (by omega) (by omega)
      rw [Int.add_emod_self] at h1
      exact h1
    simp only [hr]
    rw [if_neg (by omega)]
    omega

theorem shiftRight_one (v : Int) : v >>> (1 : Nat) = v / 2 := by
  rw [Int.shiftRight_eq_div_pow]
  rfl

theorem floorHalf_eq (v : Int) : floorHalf v = v / 2 := by
  unfold floorHalf
  have h := Rat.floor_intCast_div_natCast v 2
  simpa using h

theorem midpoint_eq (bits : Nat) (a b : Int) (h : fitsLcdint bits (a + b)) :
    midpoint bits a b = (a + b) / 2 := by
  rw [midpoint, toLcdint_of_fits bits _ h, shiftRight_one]

theorem fitsLcdint_of_small (bits : Nat) (hb : 5 ≤ bits) (v : Int) (h0 : 0 ≤ v)
    (h16 : v < 16) : fitsLcdint bits v := by
  have h32 : (2 : Int) ^ 5 ≤ 2 ^ bits := pow_le_pow_right₀ (by norm_num) hb
  have : (2 : Int) ^ 5 = 32 := by norm_num
  constructor <;> omega

/-- C5. Every move brackets the mutation between two damage reports: for
every object and every point `p`, `moveTo(p)` and `moveBy(p)` each add exactly
two `refresh()` observations, the first of the rectangle before the move and
the second of the rectangle after it, the rectangle being assigned once in
between; for `moveBy((0,0))` on an object whose coordinates are `lcdint_t`
values both observations are the unchanged rectangle. -/
theorem move_brackets_refresh (bits : Nat) (size : NanoRect → NanoPoint) (o : NanoObject)
    (p : NanoPoint) :
    (o.moveTo bits size p).refreshed = o.refreshed ++ [o.m_rect, (o.moveTo bits size p).m_rect] ∧
    (o.moveTo bits size p).m_rect = { p1 := p, p2 := NanoPoint.add bits p (size o.m_rect) } ∧
    (o.moveBy bits p).refreshed = o.refreshed ++ [o.m_rect, (o.moveBy bits p).m_rect] ∧
    (o.moveBy bits p).m_rect = NanoRect.translate bits o.m_rect p ∧
    (fitsLcdint bits o.m_rect.p1.x ∧ fitsLcdint bits o.m_rect.p1.y ∧
      fitsLcdint bits o.m_rect.p2.x ∧ fitsLcdint bits o.m_rect.p2.y →
      (o.moveBy bits { x := 0, y := 0 }).refreshed = o.refreshed ++ [o.m_rect, o.m_rect] ∧
      (o.moveBy bits { x := 0, y := 0 }).m_rect = o.m_rect) := by
  refine ⟨?_, rfl, ?_, rfl, ?_⟩
  · simp [NanoObject.moveTo, NanoObject.refresh]
  · simp [NanoObject.moveBy, NanoObject.refresh]
  · rintro ⟨h1, h2, h3, h4⟩
    have hr : NanoRect.translate bits o.m_rect { x := 0, y := 0 } = o.m_rect := by
      simp only [NanoRect.translate, NanoPoint.add, Int.add_zero, toLcdint_of_fits bits _ h1,
        toLcdint_of_fits bits _ h2, toLcdint_of_fits bits _ h3, toLcdint_of_fits bits _ h4]
    simp [NanoObject.moveBy, NanoObject.refresh, hr]

/-- C5 at a rectangle with a negative coordinate, 16-bit `lcdint_t`. -/
theorem move_brackets_refresh_witness :
    (fitsLcdint 16 3 ∧ fitsLcdint 16 (-4) ∧ fitsLcdint 16 10 ∧ fitsLcdint 16 2) ∧
    (NanoObject.moveBy 16
        { m_rect := { p1 := { x := 3, y := -4 }, p2 := { x := 10, y := 2 } },
          m_tiler := none, refreshed := [] } { x := 0, y := 0 }).refreshed =
      [{ p1 := { x := 3, y := -4 }, p2 := { x := 10, y := 2 } },
       { p1 := { x := 3, y := -4 }, p2 := { x := 10, y := 2 } }] :=
  ⟨by decide,
   ((move_brackets_refresh 16 (fun r => r.p2)
      { m_rect := { p1 := { x := 3, y := -4 }, p2 := { x := 10, y := 2 } },
        m_tiler := none, refreshed := [] } { x := 7, y := 7 }).2.2.2.2 (by decide)).1⟩

/-- C6. The anchor accessors equal the floor-midpoint reference: for every
bounding rectangle `((x1,y1),(x2,y2))` whose coordinate sums fit `lcdint_t`,
negative coordinates included, `top() = (floor((x1+x2)/2), y1)`,
`bottom() = (floor((x1+x2)/2), y2)`, `left() = (x1, floor((y1+y2)/2))`,
`right() = (x2, floor((y1+y2)/2))`,
`center() = (floor((x1+x2)/2), floor((y1+y2)/2))`, `x() = x1`, `y() = y1`;
and for `((0,0),(10,4))`, on any `lcdint_t` of at least 5 bits,
`top() = (5,0)` and `center() = (5,2)`. -/
theorem anchors_floor_midpoint (bits : Nat) (x1 y1 x2 y2 : Int) (t : Option Nat)
    (log : List NanoRect)
    (hx : fitsLcdint bits (x1 + x2)) (hy : fitsLcdint bits (y1 + y2)) :
    let o : NanoObject :=
      { m_rect := { p1 := { x := x1, y := y1 }, p2 := { x := x2, y := y2 } },
        m_tiler := t, refreshed := log }
    let o1 : NanoObject :=
      { m_rect := { p1 := { x := 0, y := 0 }, p2 := { x := 10, y := 4 } },
        m_tiler := t, refreshed := log }
    o.top bits = { x := floorHalf (x1 + x2), y := y1 } ∧
    o.bottom bits = { x := floorHalf (x1 + x2), y := y2 } ∧
    o.left bits = { x := x1, y := floorHalf (y1 + y2) } ∧
    o.right bits = { x := x2, y := floorHalf (y1 + y2) } ∧
    o.center bits = { x := floorHalf (x1 + x2), y := floorHalf (y1 + y2) } ∧
    o.x = x1 ∧ o.y = y1 ∧
    (5 ≤ bits → o1.top bits = { x := 5, y := 0 } ∧ o1.center bits = { x := 5, y := 2 }) := by
  intro o o1
  have mx := midpoint_eq bits x1 x2 hx
  have my := midpoint_eq bits y1 y2 hy
  refine ⟨?_, ?_, ?_, ?_, ?_, rfl, rfl, ?_⟩
  · simp [o, NanoObject.top, mx, floorHalf_eq]
  · simp [o, NanoObject.bottom, mx, floorHalf_eq]
  · simp [o, NanoObject.left, my, floorHalf_eq]
  · simp [o, NanoObject.right, my, floorHalf_eq]
  · simp [o, NanoObject.center, mx, my, floorHalf_eq]
  · intro hb
    have m1 := midpoint_eq bits 0 10 (fitsLcdint_of_small bits hb _ (by decide) (by decide))
    have m2 := midpoint_eq bits 0 4 (fitsLcdint_of_small bits hb _ (by decide) (by decide))
    simp only [o1, NanoObject.top, NanoObject.center, m1, m2]
    exact ⟨by decide, by decide⟩

/-- C6 at a rectangle with negative coordinates, 16-bit `lcdint_t`. -/
theorem anchors_floor_midpoint_witness :
    (fitsLcdint 16 (-7 + 2) ∧ fitsLcdint 16 (-3 + -4) ∧ 5 ≤ 16) ∧
    NanoObject.center 16
        { m_rect := { p1 := { x := -7, y := -3 }, p2 := { x := 2, y := -4 } },
          m_tiler := none, refreshed := [] } =
      { x := floorHalf (-7 + 2), y := floorHalf (-3 + -4) } ∧
    NanoObject.top 16
        { m_rect := { p1 := { x := 0, y := 0 }, p2 := { x := 10, y := 4 } },
          m_tiler := none, refreshed := [] } = { x := 5, y := 0 } :=
  ⟨by decide,
   (anchors_floor_midpoint 16 (-7) (-3) 2 (-4) none [] (by decide) (by decide)).2.2.2.2.1,
   ((anchors_floor_midpoint 16 (-7) (-3) 2 (-4) none [] (by decide) (by decide)).2.2.2.2.2.2.2
      (by decide)).1⟩

/-- C8 at the failing input: `NanoObject({5,7})` constructed in zeroed storage
has `x() = 0` and `y() = 0`, not 5 and 7; for any storage content the
accessors return that content, whatever `pos` is. -/
theorem construct_ignores_pos :
    (NanoObject.construct { p1 := { x := 0, y := 0 }, p2 := { x := 0, y := 0 } }
        { x := 5, y := 7 }).x = 0 ∧
    (NanoObject.construct { p1 := { x := 0, y := 0 }, p2 := { x := 0, y := 0 } }
        { x := 5, y := 7 }).y = 0 ∧
    (NanoObject.construct { p1 := { x := 0, y := 0 }, p2 := { x := 0, y := 0 } }
        { x := 5, y := 7 }).x ≠ 5 ∧
    (∀ (r : NanoRect) (pos : NanoPoint),
      (NanoObject.construct r pos).x = r.p1.x ∧ (NanoObject.construct r pos).y = r.p1.y) := by
  refine ⟨rfl, rfl, by decide, fun _ _ => ⟨rfl, rfl⟩⟩

/-- C10. The anchor points never leave the bounding rectangle and odd extents
round toward the lower coordinate, negative coordinates included: for every
rectangle with `x1 ≤ x2` and `y1 ≤ y2` whose coordinate sums fit `lcdint_t`,
`center() = (x1 + floor((x2-x1)/2), y1 + floor((y2-y1)/2))`, so
`x1 ≤ center().x ≤ x2` and `y1 ≤ center().y ≤ y2`, and `top()`, `bottom()`,
`left()`, `right()` lie on the top, bottom, left and right edge. -/
theorem anchors_inside_rect (bits : Nat) (x1 y1 x2 y2 : Int) (t : Option Nat)
    (log : List NanoRect) (hxo : x1 ≤ x2) (hyo : y1 ≤ y2)
    (hx : fitsLcdint bits (x1 + x2)) (hy : fitsLcdint bits (y1 + y2)) :
    let o : NanoObject :=
      { m_rect := { p1 := { x := x1, y := y1 }, p2 := { x := x2, y := y2 } },
        m_tiler := t, refreshed := log }
    o.center bits = { x := x1 + floorHalf (x2 - x1), y := y1 + floorHalf (y2 - y1) } ∧
    (x1 ≤ (o.center bits).x ∧ (o.center bits).x ≤ x2) ∧
    (y1 ≤ (o.center bits).y ∧ (o.center bits).y ≤ y2) ∧
    ((o.top bits).y = y1 ∧ x1 ≤ (o.top bits).x ∧ (o.top bits).x ≤ x2) ∧
    ((o.bottom bits).y = y2 ∧ x1 ≤ (o.bottom bits).x ∧ (o.bottom bits).x ≤ x2) ∧
    ((o.left bits).x = x1 ∧ y1 ≤ (o.left bits).y ∧ (o.left bits).y ≤ y2) ∧
    ((o.right bits).x = x2 ∧ y1 ≤ (o.right bits).y ∧ (o.right bits).y ≤ y2) := by
  intro o
  have mx := midpoint_eq bits x1 x2 hx
  have my := midpoint_eq bits y1 y2 hy
  simp only [o, NanoObject.center, NanoObject.top, NanoObject.bottom, NanoObject.left,
    NanoObject.right, mx, my, floorHalf_eq, NanoPoint.mk.injEq]
  refine ⟨⟨?_, ?_⟩, ⟨?_, ?_⟩, ⟨?_, ?_⟩, ⟨trivial, ?_, ?_⟩, ⟨trivial, ?_, ?_⟩,
    ⟨trivial, ?_, ?_⟩, ⟨trivial, ?_, ?_⟩⟩ <;> omega

/-- C10 at a rectangle with negative coordinates and an odd extent. -/
theorem anchors_inside_rect_witness :
    (-7 ≤ (-2 : Int) ∧ -5 ≤ (-5 : Int) ∧ fitsLcdint 16 (-7 + -2) ∧ fitsLcdint 16 (-5 + -5)) ∧
    NanoObject.center 16
        { m_rect := { p1 := { x := -7, y := -5 }, p2 := { x := -2, y := -5 } },
          m_tiler := none, refreshed := [] } =
      { x := -7 + floorHalf (-2 - -7), y := -5 + floorHalf (-5 - -5) } :=
  ⟨by decide,
   (anchors_inside_rect 16 (-7) (-5) (-2) (-5) none [] (by decide) (by decide) (by decide)
      (by decide)).1⟩

end SSD1306
